import Mathlib

/-!
Shallow embedding of `bumprev.py`, an Amiga-style revision bumping tool.

The program keeps a persistent revision counter in `<basename>_rev.rev`
and renders version metadata into up to three generated files
(`<basename>_rev.h`, `<basename>_rev.i`, `<basename>_rev.s`).

Modelling choices:
* file contents are `List Char`; the file system is an association list
  from path (`String`) to content;
* Python `str(int)` is modelled by `intChars`/`intStr` (decimal digits,
  a leading minus sign for negatives);
* Python `int(string)` is modelled by `pyInt`: strip ASCII whitespace,
  optional sign, a nonempty run of decimal digits, else failure
  (underscore digit separators of Python 3.6+ are not modelled);
* `datetime.date.today()` is an environment input, passed in as a `PyDate`;
* I/O faults are injected through a `Faults` record: `openFail p` means
  `open(p, ...)` raises `IOError`, `writeFail p` means the first `write`
  on the handle for `p` raises `IOError`.  `close()` is modelled as
  always succeeding.  An exception that propagates out of the embedded
  code is modelled by a `none` result and makes the process exit 1,
  mirroring CPython's behaviour for an uncaught exception.
-/

set_option maxRecDepth 16384

/-- One content character per Python string character (ASCII here). -/
abbrev Content := List Char

/-- The file system: association list from path to file content. -/
abbrev Fs := List (String × Content)

/-- Lookup a path in the file system (`os.path.isfile` is `isSome`). -/
def fsGet : Fs → String → Option Content
  | [], _ => none
  | (q, c) :: t, p => if q = p then some c else fsGet t p

/-- Write a whole file: replace the binding if present, else add it. -/
def fsSet : Fs → String → Content → Fs
  | [], p, c => [(p, c)]
  | (q, d) :: t, p, c => if q = p then (p, c) :: t else (q, d) :: fsSet t p c

/-- Injected I/O faults: which paths fail to open, and which handles
fail on their first write. -/
structure Faults where
  openFail : String → Bool
  writeFail : String → Bool

/-- No injected faults: every open and write succeeds. -/
def noFaults : Faults := ⟨fun _ => false, fun _ => false⟩

/-- The ten decimal digit characters. -/
def digitChar : Nat → Char
  | 0 => '0'
  | 1 => '1'
  | 2 => '2'
  | 3 => '3'
  | 4 => '4'
  | 5 => '5'
  | 6 => '6'
  | 7 => '7'
  | 8 => '8'
  | 9 => '9'
  | _ => '*'

/-- Fuel-driven decimal rendering of a natural number (most significant
digit first).  The fuel makes the definition structurally recursive. -/
def natCharsAux : Nat → Nat → List Char
  | 0, _ => []
  | f + 1, n =>
    if n < 10 then [digitChar n]
    else natCharsAux f (n / 10) ++ [digitChar (n % 10)]

/-- Decimal digits of a natural number, as Python `str` renders it. -/
def natChars (n : Nat) : List Char := natCharsAux (n + 1) n

/-- Python `str` on an `int`: decimal digits, `-` prefix for negatives. -/
def intChars : Int → List Char
  | Int.ofNat n => natChars n
  | Int.negSucc m => '-' :: natChars (m + 1)

/-- Python `str` on an `int`, as a Lean `String`. -/
def intStr (i : Int) : String := String.mk (intChars i)

/-- ASCII whitespace as stripped by Python `int()`. -/
def isSpaceC (c : Char) : Bool :=
  c = ' ' || c = '\t' || c = '\n' || c = '\x0d' || c = '\x0b' || c = '\x0c'

/-- A decimal digit character. -/
def isDigitC (c : Char) : Bool := '0' ≤ c && c ≤ '9'

/-- Python `str.strip()` for the whitespace class above. -/
def pyStrip (l : List Char) : List Char :=
  (((l.dropWhile isSpaceC).reverse.dropWhile isSpaceC)).reverse

/-- Python `file.readline()` on a file's full content: the first line,
including its newline when present. -/
def readline1 : List Char → List Char
  | [] => []
  | c :: t => if c = '\n' then ['\n'] else c :: readline1 t

/-- Value of a nonempty all-digit character run, else `none`. -/
def digitsVal (l : List Char) : Option Nat :=
  if l = [] then none
  else if l.all isDigitC then
    some (l.foldl (fun a c => 10 * a + (c.toNat - 48)) 0)
  else none

/-- Python `int()` after stripping: optional sign then digits. -/
def pyIntCore (l : List Char) : Option Int :=
  match l with
  | [] => none
  | c :: rest =>
    if c = '-' then
      match digitsVal rest with
      | none => none
      | some n => some (-(n : Int))
    else if c = '+' then
      match digitsVal rest with
      | none => none
      | some n => some ((n : Int))
    else
      match digitsVal (c :: rest) with
      | none => none
      | some n => some ((n : Int))

/-- Python `int(s)`: `none` models a `ValueError`. -/
def pyInt (l : List Char) : Option Int := pyIntCore (pyStrip l)

/-- Writing `new` at position 0 of a file holding `old`, without
truncation (`file.seek(0)` then `file.write(new)`). -/
def writeAt0 (old new : Content) : Content := new ++ old.drop new.length

/-- A calendar date as `datetime.date.today()` yields it. -/
structure PyDate where
  day : Nat
  month : Nat
  year : Nat

/-- The date string `str(day) + '.' + str(month) + '.' + str(year)`. -/
def dateStr (d : PyDate) : String :=
  String.mk (natChars d.day) ++ "." ++ String.mk (natChars d.month) ++ "."
    ++ String.mk (natChars d.year)

/-- Result of `RevisionFile.bump_revision`: `ret = none` models an
uncaught exception escaping the method; `msgs` are the lines printed. -/
structure BumpOut where
  ret : Option Int
  fs : Fs
  msgs : List String

/-- `RevisionFile.bump_revision` for the file `revPath`.

Existing-file branch: `open(p, 'r+')`; on open failure the `except`
prints and then `file.close()` in `finally` raises `UnboundLocalError`
(the local `file` was never bound), which propagates.  Otherwise
`int(file.readline())` may raise `ValueError` (uncaught, propagates).
A write fault is caught by `except IOError`, which prints but falls
through to `return revision`, still holding the value read (the
`revision += 1` line was never reached).  On success the new value is
written at offset 0 without truncation.

Missing-file branch: prints the creation message unless quiet, then
`open(p, 'w')`; open failure again ends in the `finally` raising
`UnboundLocalError`; otherwise the file is created holding `1\n`.

`RevisionFile.__init__` appends `_rev.rev` to the base file name. -/
def bump_revision (flt : Faults) (quiet : Bool) (fs : Fs)
    (base_file_name : String) : BumpOut :=
  let revPath := base_file_name ++ "_rev.rev"
  match fsGet fs revPath with
  | some content =>
    if flt.openFail revPath then
      ⟨none, fs, ["Failed to bump " ++ revPath]⟩
    else
      match pyInt (readline1 content) with
      | none => ⟨none, fs, []⟩
      | some n =>
        if flt.writeFail revPath then
          ⟨some n, fs, ["Failed to bump " ++ revPath]⟩
        else
          ⟨some (n + 1),
           fsSet fs revPath (writeAt0 content (intChars (n + 1) ++ ['\n'])),
           []⟩
  | none =>
    let m := if quiet then [] else ["Creating new file \"" ++ revPath ++ "\"."]
    if flt.openFail revPath then
      ⟨none, fs, m ++ ["Failed to bump " ++ revPath]⟩
    else
      ⟨some 1, fsSet fs revPath ['1', '\n'], m⟩

/-- The six lines of `HFile.codegen`. -/
def hfile_lines (name : String) (ver rev : Int) (date : String) :
    List String :=
  let name_ver_rev := name ++ " " ++ intStr ver ++ "." ++ intStr rev
  [ "#define VERSION   " ++ intStr ver,
    "#define REVISION  " ++ intStr rev,
    "#define DATE      \"" ++ date ++ "\"",
    "#define VERS      \"" ++ name_ver_rev ++ "\"",
    "#define VSTRING   \"" ++ name_ver_rev ++ " (" ++ date ++ ")\\r\\n\"",
    "#define VERSTAG   \"\\0$VER: " ++ name_ver_rev ++ " (" ++ date ++ ")\"" ]

/-- The lines of `IFile.codegen` (the first line has a literal tab and
an escaped tab in the Python source, hence two tabs here). -/
def ifile_lines (name : String) (ver rev : Int) (date : String) :
    List String :=
  let name_ver_rev := name ++ " " ++ intStr ver ++ "." ++ intStr rev
  [ "VERSION\t\tEQU " ++ intStr ver,
    "REVISION\tEQU " ++ intStr rev,
    "",
    "DATE\tMACRO",
    "\t\tdc.b '" ++ date ++ "'",
    "\t\tENDM",
    "",
    "VERS\tMACRO",
    "\t\tdc.b '" ++ name_ver_rev ++ "'",
    "\t\tENDM",
    "",
    "VSTRING\tMACRO",
    "\t\tdc.b '" ++ name_ver_rev ++ " (" ++ date ++ ")',13,10,0",
    "\t\tENDM",
    "",
    "VERSTAG\tMACRO",
    "\t\tdc.b 0,'$VER: " ++ name_ver_rev ++ " (" ++ date ++ "',0",
    "\t\tENDM" ]

/-- The lines of `SFile.codegen`. -/
def sfile_lines (name : String) (ver rev : Int) (date : String) :
    List String :=
  let name_ver_rev := name ++ " " ++ intStr ver ++ "." ++ intStr rev
  [ "VERSION = " ++ intStr ver,
    "REVISION = " ++ intStr rev,
    "",
    ".macro DATE",
    ".ascii \"" ++ date ++ "\"",
    ".endm",
    "",
    ".macro VERS",
    ".ascii \"" ++ name_ver_rev ++ "\"",
    ".endm",
    "",
    ".macro VSTRING",
    ".ascii \"" ++ name_ver_rev ++ " (" ++ date ++ ")\"",
    ".byte 13,10,0",
    ".endm",
    "",
    ".macro VERSTAG",
    ".byte 0",
    ".ascii \"$VER: " ++ name_ver_rev ++ " (" ++ date ++ ")\"",
    ".byte 0",
    ".endm" ]

/-- File content from a line list: `putln` appends `'\n'` to each line. -/
def mkContent (lines : List String) : Content :=
  (lines.map (fun l => l.data ++ ['\n'])).flatten

/-- Result of a `codegen` call: `ret = none` models an uncaught
exception escaping the method (a write fault; `putln` is not guarded). -/
structure GenOut where
  ret : Option Bool
  fs : Fs
  msgs : List String

/-- Shared control flow of the three `codegen` methods: open `w+`
(truncating), on open failure print and return `False`; a write fault
leaves the file truncated and propagates; otherwise write all lines. -/
def filegen (flt : Faults) (path : String) (lines : List String) (fs : Fs) :
    GenOut :=
  if flt.openFail path then
    ⟨some false, fs, ["Failed to open " ++ path]⟩
  else if flt.writeFail path then
    ⟨none, fsSet fs path [], []⟩
  else
    ⟨some true, fsSet fs path (mkContent lines), []⟩

/-- `HFile(name, version, revision).codegen(basename)`. -/
def hfile_codegen (flt : Faults) (name : String) (ver rev : Int)
    (today : PyDate) (fs : Fs) (basename : String) : GenOut :=
  filegen flt (basename ++ "_rev.h") (hfile_lines name ver rev (dateStr today)) fs

/-- `IFile(name, version, revision).codegen(basename)`. -/
def ifile_codegen (flt : Faults) (name : String) (ver rev : Int)
    (today : PyDate) (fs : Fs) (basename : String) : GenOut :=
  filegen flt (basename ++ "_rev.i") (ifile_lines name ver rev (dateStr today)) fs

/-- `SFile(name, version, revision).codegen(basename)`. -/
def sfile_codegen (flt : Faults) (name : String) (ver rev : Int)
    (today : PyDate) (fs : Fs) (basename : String) : GenOut :=
  filegen flt (basename ++ "_rev.s") (sfile_lines name ver rev (dateStr today)) fs

/-- Python `s.count(c)` for a single character. -/
def countc (s : String) (c : Char) : Nat := s.data.count c

/-- `os.path.basename`: everything after the last `/`. -/
def os_path_basename (p : String) : String :=
  String.mk ((p.data.reverse.takeWhile (fun c => c ≠ '/')).reverse)

/-- The validated command line handed to the main block by `parse_args`. -/
structure Args where
  q : Bool
  i : String
  n : Option String
  vernum : Int
  basename : String

/-- Outcome of one invocation: process exit code, final file system,
printed messages in order. -/
structure MainOut where
  exitCode : Nat
  fs : Fs
  msgs : List String

/-- The three guarded `codegen` calls at the bottom of the main block.
Each runs only when its letter occurs exactly once in the suffix string
(`args['i'].count(x) == 1`); return values are ignored, but an
exception escaping a `codegen` ends the process with exit code 1. -/
def runGens (flt : Faults) (sufs : String) (name : String)
    (version revision : Int) (today : PyDate) (fs : Fs) (basename : String) :
    MainOut :=
  match (if countc sufs 'h' = 1 then
          hfile_codegen flt name version revision today fs basename
         else ⟨some true, fs, []⟩ : GenOut) with
  | ⟨none, fs1, m1⟩ => ⟨1, fs1, m1⟩
  | ⟨some _, fs1, m1⟩ =>
    match (if countc sufs 'i' = 1 then
            ifile_codegen flt name version revision today fs1 basename
           else ⟨some true, fs1, []⟩ : GenOut) with
    | ⟨none, fs2, m2⟩ => ⟨1, fs2, m1 ++ m2⟩
    | ⟨some _, fs2, m2⟩ =>
      match (if countc sufs 's' = 1 then
              sfile_codegen flt name version revision today fs2 basename
             else ⟨some true, fs2, []⟩ : GenOut) with
      | ⟨none, fs3, m3⟩ => ⟨1, fs3, m1 ++ m2 ++ m3⟩
      | ⟨some _, fs3, m3⟩ => ⟨0, fs3, m1 ++ m2 ++ m3⟩

/-- The `__main__` block after successful argument parsing: count the
format letters and exit 1 when none is present; bump the revision
(exit 1 if the bump raises or returns the -1 sentinel); derive the
program name; print the status line unless quiet; run the selected
generators. -/
def bumprev_main (flt : Faults) (a : Args) (today : PyDate) (fs : Fs) :
    MainOut :=
  if countc a.i 'h' + countc a.i 'i' + countc a.i 's' = 0 then
    ⟨1, fs, []⟩
  else
    let b := bump_revision flt a.q fs a.basename
    match b.ret with
    | none => ⟨1, b.fs, b.msgs⟩
    | some revision =>
      if revision = -1 then ⟨1, b.fs, b.msgs⟩
      else
        let name := a.n.getD (os_path_basename a.basename)
        let bm :=
          if a.q then []
          else ["Bumped \"" ++ name ++ "\" to version " ++ intStr a.vernum
                  ++ "." ++ intStr revision ++ "."]
        let g := runGens flt a.i name a.vernum revision today b.fs a.basename
        ⟨g.exitCode, g.fs, b.msgs ++ bm ++ g.msgs⟩

/-- `k` sequential fault-free calls of `bump_revision` on the same base
path: the list of returned values in order, and the final file system. -/
def bumpTimes (quiet : Bool) (base : String) : Nat → Fs → List (Option Int) × Fs
  | 0, fs => ([], fs)
  | k + 1, fs =>
    let r := bump_revision noFaults quiet fs base
    let rest := bumpTimes quiet base k r.fs
    (r.ret :: rest.1, rest.2)

/-- Faults for the counter-write-failure scenario: only the first write
on `b_rev.rev` raises `IOError`. -/
def revWriteFault : Faults := ⟨fun _ => false, fun p => p == "b_rev.rev"⟩

/-- Faults for the generator-write-failure scenario: only the first
write on `b_rev.h` raises `IOError`. -/
def hWriteFault : Faults := ⟨fun _ => false, fun p => p == "b_rev.h"⟩

@[simp] theorem noFaults_openFail (p : String) : noFaults.openFail p = false := rfl

@[simp] theorem noFaults_writeFail (p : String) : noFaults.writeFail p = false := rfl

theorem digitChar_facts (d : Nat) (h : d < 10) :
    isDigitC (digitChar d) = true ∧ isSpaceC (digitChar d) = false ∧
    digitChar d ≠ '\n' ∧ digitChar d ≠ '-' ∧ digitChar d ≠ '+' ∧
    (digitChar d).toNat - 48 = d := by
  interval_cases d <;> exact ⟨by decide, by decide, by decide, by decide, by decide, by decide⟩

theorem natCharsAux_congr (f g n : Nat) (hf : n < f) (hg : n < g) :
    natCharsAux f n = natCharsAux g n := by
  induction f generalizing g n with
  | zero => omega
  | succ f ih =>
    cases g with
    | zero => omega
    | succ g =>
      simp only [natCharsAux]
      by_cases h10 : n < 10
      · simp [h10]
      · have hd : n / 10 < n := Nat.div_lt_self (by omega) (by omega)
        simp only [if_neg h10]
        rw [ih g (n / 10) (by omega) (by omega)]

theorem natChars_eq (n : Nat) :
    natChars n = if n < 10 then [digitChar n]
                 else natChars (n / 10) ++ [digitChar (n % 10)] := by
  by_cases h10 : n < 10
  · simp [natChars, natCharsAux, h10]
  · have hd : n / 10 < n := Nat.div_lt_self (by omega) (by omega)
    simp only [natChars, natCharsAux, if_neg h10]
    rw [natCharsAux_congr n (n / 10 + 1) (n / 10) (by omega) (by omega)]
    simp only [natCharsAux]

theorem natChars_ne_nil (n : Nat) : natChars n ≠ [] := by
  rw [natChars_eq n]
  by_cases h10 : n < 10 <;> simp [h10]

theorem natChars_mem (n : Nat) : ∀ c ∈ natChars n, ∃ d, d < 10 ∧ c = digitChar d := by
  induction n using Nat.strong_induction_on with
  | _ n ih =>
    intro c hc
    rw [natChars_eq n] at hc
    by_cases h10 : n < 10
    · rw [if_pos h10] at hc
      simp only [List.mem_singleton] at hc
      exact ⟨n, h10, hc⟩
    · rw [if_neg h10] at hc
      rcases List.mem_append.1 hc with h | h
      · exact ih (n / 10) (Nat.div_lt_self (by omega) (by omega)) c h
      · simp only [List.mem_singleton] at h
        exact ⟨n % 10, Nat.mod_lt _ (by omega), h⟩

theorem natChars_length_mono : ∀ (b a : Nat), a ≤ b →
    (natChars a).length ≤ (natChars b).length := by
  intro b
  induction b using Nat.strong_induction_on with
  | _ b ih =>
    intro a hab
    rw [natChars_eq a, natChars_eq b]
    by_cases hb : b < 10
    · have ha : a < 10 := by omega
      simp [ha, hb]
    · by_cases ha : a < 10
      · simp only [if_pos ha, if_neg hb, List.length_append, List.length_singleton]
        omega
      · simp only [if_neg ha, if_neg hb, List.length_append, List.length_singleton]
        have h1 : (natChars (a / 10)).length ≤ (natChars (b / 10)).length :=
          ih (b / 10) (Nat.div_lt_self (by omega) (by omega)) (a / 10)
            (Nat.div_le_div_right hab)
        omega

theorem natChars_foldl (n : Nat) : ∀ (a : Nat),
    (natChars n).foldl (fun a c => 10 * a + (c.toNat - 48)) a
      = a * 10 ^ (natChars n).length + n := by
  induction n using Nat.strong_induction_on with
  | _ n ih =>
    intro a
    rw [natChars_eq n]
    by_cases h10 : n < 10
    · simp only [if_pos h10, List.foldl_cons, List.foldl_nil, List.length_singleton,
        pow_one]
      rw [(digitChar_facts n h10).2.2.2.2.2]
      omega
    · rw [if_neg h10, List.foldl_append]
      have hd : n / 10 < n := Nat.div_lt_self (by omega) (by omega)
      rw [ih (n / 10) hd a]
      have h9 : n % 10 < 10 := Nat.mod_lt _ (by omega)
      simp only [List.foldl_cons, List.foldl_nil, List.length_append,
        List.length_singleton]
      rw [(digitChar_facts _ h9).2.2.2.2.2, pow_succ, ← mul_assoc]
      generalize a * 10 ^ (natChars (n / 10)).length = K
      omega

theorem natChars_all_digits (n : Nat) : (natChars n).all isDigitC = true := by
  rw [List.all_eq_true]
  intro c hc
  obtain ⟨d, hd, rfl⟩ := natChars_mem n c hc
  exact (digitChar_facts d hd).1

theorem digitsVal_natChars (n : Nat) : digitsVal (natChars n) = some n := by
  unfold digitsVal
  rw [if_neg (natChars_ne_nil n), if_pos (natChars_all_digits n), natChars_foldl n 0]
  simp

theorem dropWhile_all_false {α : Type} (p : α → Bool) (l : List α)
    (h : ∀ c ∈ l, p c = false) : l.dropWhile p = l := by
  cases l with
  | nil => rfl
  | cons c t => simp [List.dropWhile_cons, h c (List.mem_cons_self c t)]

theorem pyStrip_all_nonspace (l : List Char) (h : ∀ c ∈ l, isSpaceC c = false) :
    pyStrip l = l := by
  unfold pyStrip
  rw [dropWhile_all_false _ l h,
    dropWhile_all_false _ l.reverse (fun c hc => h c (List.mem_reverse.1 hc)),
    List.reverse_reverse]

theorem pyStrip_append_newline (l : List Char) (hne : l ≠ [])
    (h : ∀ c ∈ l, isSpaceC c = false) : pyStrip (l ++ ['\n']) = l := by
  unfold pyStrip
  have h1 : (l ++ ['\n']).dropWhile isSpaceC = l ++ ['\n'] := by
    cases l with
    | nil => exact absurd rfl hne
    | cons c t =>
      rw [List.cons_append]
      simp [List.dropWhile_cons, h c (List.mem_cons_self c t)]
  rw [h1, List.reverse_append]
  show List.reverse (List.dropWhile isSpaceC ('\n' :: l.reverse)) = l
  rw [List.dropWhile_cons]
  rw [if_pos (by decide : isSpaceC '\n' = true)]
  rw [dropWhile_all_false _ l.reverse (fun c hc => h c (List.mem_reverse.1 hc)),
    List.reverse_reverse]

theorem readline1_append_newline (l : List Char) (h : ∀ c ∈ l, c ≠ '\n')
    (rest : List Char) : readline1 (l ++ '\n' :: rest) = l ++ ['\n'] := by
  induction l with
  | nil => simp [readline1]
  | cons c t ih =>
    rw [List.cons_append]
    simp only [readline1]
    rw [if_neg (h c (List.mem_cons_self c t))]
    rw [ih (fun x hx => h x (List.mem_cons_of_mem c hx))]
    rfl

theorem intChars_nonspace (N : Int) : ∀ c ∈ intChars N, isSpaceC c = false := by
  cases N with
  | ofNat n =>
    intro c hc
    obtain ⟨d, hd, rfl⟩ := natChars_mem n c hc
    exact (digitChar_facts d hd).2.1
  | negSucc m =>
    intro c hc
    rcases List.mem_cons.1 hc with rfl | hc
    · decide
    · obtain ⟨d, hd, rfl⟩ := natChars_mem _ c hc
      exact (digitChar_facts d hd).2.1

theorem intChars_ne_newline (N : Int) : ∀ c ∈ intChars N, c ≠ '\n' := by
  cases N with
  | ofNat n =>
    intro c hc
    obtain ⟨d, hd, rfl⟩ := natChars_mem n c hc
    exact (digitChar_facts d hd).2.2.1
  | negSucc m =>
    intro c hc
    rcases List.mem_cons.1 hc with rfl | hc
    · decide
    · obtain ⟨d, hd, rfl⟩ := natChars_mem _ c hc
      exact (digitChar_facts d hd).2.2.1

theorem intChars_ne_nil (N : Int) : intChars N ≠ [] := by
  cases N with
  | ofNat n => exact natChars_ne_nil n
  | negSucc m => simp [intChars]

theorem pyIntCore_intChars (N : Int) : pyIntCore (intChars N) = some N := by
  cases N with
  | ofNat n =>
    have hne := natChars_ne_nil n
    obtain ⟨c, t, hct⟩ : ∃ c t, natChars n = c :: t := by
      cases hl : natChars n with
      | nil => exact absurd hl hne
      | cons c t => exact ⟨c, t, rfl⟩
    have hc : c ∈ natChars n := by rw [hct]; exact List.mem_cons_self c t
    obtain ⟨d, hd, hcd⟩ := natChars_mem n c hc
    have hminus : c ≠ '-' := by rw [hcd]; exact (digitChar_facts d hd).2.2.2.1
    have hplus : c ≠ '+' := by rw [hcd]; exact (digitChar_facts d hd).2.2.2.2.1
    show pyIntCore (natChars n) = some (Int.ofNat n)
    rw [hct]
    simp only [pyIntCore]
    rw [if_neg hminus, if_neg hplus, ← hct, digitsVal_natChars n]
    rfl
  | negSucc m =>
    show pyIntCore ('-' :: natChars (m + 1)) = some (Int.negSucc m)
    simp only [pyIntCore, if_true]
    rw [digitsVal_natChars (m + 1)]
    simp [Int.negSucc_eq]

theorem pyInt_intChars_line (N : Int) (rest : List Char) :
    pyInt (readline1 (intChars N ++ '\n' :: rest)) = some N := by
  rw [readline1_append_newline _ (intChars_ne_newline N) rest]
  unfold pyInt
  rw [pyStrip_append_newline _ (intChars_ne_nil N) (intChars_nonspace N)]
  exact pyIntCore_intChars N

theorem writeAt0_exact (N : Int) (h : 0 ≤ N) :
    writeAt0 (intChars N ++ ['\n']) (intChars (N + 1) ++ ['\n'])
      = intChars (N + 1) ++ ['\n'] := by
  obtain ⟨n, rfl⟩ := Int.eq_ofNat_of_zero_le h
  have h1 : ((n : Int) + 1) = ((n + 1 : Nat) : Int) := by push_cast; ring
  rw [h1]
  show writeAt0 (natChars n ++ ['\n']) (natChars (n + 1) ++ ['\n'])
    = natChars (n + 1) ++ ['\n']
  unfold writeAt0
  rw [List.drop_eq_nil_of_le, List.append_nil]
  simp only [List.length_append, List.length_singleton]
  have := natChars_length_mono (n + 1) n (by omega)
  omega

@[simp] theorem fsGet_fsSet_self (fs : Fs) (p : String) (c : Content) :
    fsGet (fsSet fs p c) p = some c := by
  induction fs with
  | nil => simp [fsSet, fsGet]
  | cons hd t ih =>
    obtain ⟨q, d⟩ := hd
    by_cases hqp : q = p
    · simp [fsSet, fsGet, hqp]
    · simp [fsSet, fsGet, hqp, ih]

theorem fsGet_fsSet_ne (fs : Fs) (p r : String) (c : Content) (h : r ≠ p) :
    fsGet (fsSet fs p c) r = fsGet fs r := by
  have h' : ¬p = r := fun he => h he.symm
  induction fs with
  | nil => simp [fsSet, fsGet, h']
  | cons hd t ih =>
    obtain ⟨q, d⟩ := hd
    by_cases hqp : q = p
    · subst hqp
      simp [fsSet, fsGet, h']
    · simp [fsSet, fsGet, hqp, ih]

theorem append_suffix_ne (bn : String) (s1 s2 : String) (h : s1 ≠ s2) :
    bn ++ s1 ≠ bn ++ s2 := by
  intro he
  apply h
  have hd := congrArg String.data he
  rw [String.data_append bn s1, String.data_append bn s2] at hd
  exact String.ext (List.append_cancel_left hd)

theorem bump_existing_eq (q : Bool) (fs : Fs) (base : String) (N : Int)
    (h : fsGet fs (base ++ "_rev.rev") = some (intChars N ++ ['\n'])) :
    bump_revision noFaults q fs base =
      ⟨some (N + 1),
       fsSet fs (base ++ "_rev.rev")
         (writeAt0 (intChars N ++ ['\n']) (intChars (N + 1) ++ ['\n'])),
       []⟩ := by
  simp only [bump_revision, h, noFaults_openFail, noFaults_writeFail,
    Bool.false_eq_true, if_false]
  rw [pyInt_intChars_line N []]

theorem bump_create_eq (flt : Faults) (q : Bool) (fs : Fs) (base : String)
    (h : fsGet fs (base ++ "_rev.rev") = none)
    (hof : flt.openFail (base ++ "_rev.rev") = false) :
    bump_revision flt q fs base =
      ⟨some 1, fsSet fs (base ++ "_rev.rev") ['1', '\n'],
       if q then []
       else ["Creating new file \"" ++ (base ++ "_rev.rev") ++ "\"."]⟩ := by
  simp only [bump_revision, h, hof, Bool.false_eq_true, if_false]

/-- C1.  For every base path whose counter file exists and holds the
decimal text of the integer `N` (one line, trailing newline), `bump`
returns `N + 1`; afterwards the counter file's first line parses back
to `N + 1`, and for the values the tool itself ever stores (`N ≥ 0`,
where the new decimal text is never shorter than the old) the file's
content is exactly the decimal text of `N + 1` with a trailing
newline. -/
theorem bump_existing_increments (q : Bool) (fs : Fs) (base : String) (N : Int)
    (h : fsGet fs (base ++ "_rev.rev") = some (intChars N ++ ['\n'])) :
    (bump_revision noFaults q fs base).ret = some (N + 1) ∧
    pyInt (readline1
        ((fsGet (bump_revision noFaults q fs base).fs (base ++ "_rev.rev")).getD []))
      = some (N + 1) ∧
    (0 ≤ N →
      fsGet (bump_revision noFaults q fs base).fs (base ++ "_rev.rev")
        = some (intChars (N + 1) ++ ['\n'])) := by
  rw [bump_existing_eq q fs base N h]
  refine ⟨rfl, ?_, ?_⟩
  · simp only [fsGet_fsSet_self, Option.getD_some]
    unfold writeAt0
    rw [List.append_assoc]
    exact pyInt_intChars_line (N + 1) _
  · intro h0
    rw [fsGet_fsSet_self, writeAt0_exact N h0]

/-- Witness for C1 at a concrete input: a counter file holding `7`. -/
theorem bump_existing_increments_witness :
    fsGet [("b_rev.rev", ['7', '\n'])] ("b" ++ "_rev.rev")
        = some (intChars 7 ++ ['\n']) ∧
    (bump_revision noFaults false [("b_rev.rev", ['7', '\n'])] "b").ret
        = some 8 := by
  refine ⟨by decide, ?_⟩
  have := bump_existing_increments false [("b_rev.rev", ['7', '\n'])] "b" 7 (by decide)
  simpa using this.1

/-- C2.  For every base path with no existing counter file, `bump`
creates the counter file holding exactly `1` and a newline, and
returns 1. -/
theorem bump_creates_file (q : Bool) (fs : Fs) (base : String)
    (h : fsGet fs (base ++ "_rev.rev") = none) :
    (bump_revision noFaults q fs base).ret = some 1 ∧
    fsGet (bump_revision noFaults q fs base).fs (base ++ "_rev.rev")
      = some ['1', '\n'] := by
  rw [bump_create_eq noFaults q fs base h rfl]
  exact ⟨rfl, by rw [fsGet_fsSet_self]⟩

/-- Witness for C2 at a concrete input: an empty file system. -/
theorem bump_creates_file_witness :
    fsGet ([] : Fs) ("b" ++ "_rev.rev") = none ∧
    (bump_revision noFaults false [] "b").ret = some 1 ∧
    fsGet (bump_revision noFaults false [] "b").fs ("b" ++ "_rev.rev")
      = some ['1', '\n'] := by
  refine ⟨by decide, ?_⟩
  exact bump_creates_file false [] "b" (by decide)

theorem bump_nat_content (q : Bool) (fs : Fs) (base : String) (j : Nat)
    (h : fsGet fs (base ++ "_rev.rev") = some (natChars j ++ ['\n'])) :
    (bump_revision noFaults q fs base).ret = some ((j : Int) + 1) ∧
    fsGet (bump_revision noFaults q fs base).fs (base ++ "_rev.rev")
      = some (natChars (j + 1) ++ ['\n']) := by
  have h' : fsGet fs (base ++ "_rev.rev") = some (intChars (Int.ofNat j) ++ ['\n']) := h
  rw [bump_existing_eq q fs base (Int.ofNat j) h']
  refine ⟨rfl, ?_⟩
  rw [fsGet_fsSet_self, writeAt0_exact (Int.ofNat j) (Int.ofNat_nonneg j)]
  rfl

theorem bumpTimes_from (quiet : Bool) (base : String) :
    ∀ (m j : Nat) (fs : Fs),
      fsGet fs (base ++ "_rev.rev") = some (natChars j ++ ['\n']) →
      (bumpTimes quiet base m fs).1
          = (List.range m).map (fun t : Nat => some ((j + t + 1 : Int))) ∧
        fsGet (bumpTimes quiet base m fs).2 (base ++ "_rev.rev")
          = some (natChars (j + m) ++ ['\n']) := by
  intro m
  induction m with
  | zero =>
    intro j fs h
    simpa [bumpTimes] using h
  | succ m ih =>
    intro j fs h
    obtain ⟨hret, hfs⟩ := bump_nat_content quiet fs base j h
    obtain ⟨ihr, ihf⟩ := ih (j + 1) (bump_revision noFaults quiet fs base).fs hfs
    simp only [bumpTimes]
    constructor
    · rw [hret, ihr, List.range_succ_eq_map, List.map_cons, List.map_map]
      have htail :
          List.map ((fun t : Nat => some ((j + t + 1 : Int))) ∘ Nat.succ)
              (List.range m)
            = List.map
                (fun t : Nat => some (((j + 1 : Nat) : Int) + (t : Int) + 1))
                (List.range m) := by
        apply List.map_congr_left
        intro t _
        simp only [Function.comp_apply]
        congr 1
        push_cast
        ring
      rw [htail]
      norm_num
    · rw [ihf]
      have : j + 1 + m = j + (m + 1) := by omega
      rw [this]

/-- C3.  Starting from a base path with no counter file, `k` sequential
fault-free bumps return exactly the strictly increasing sequence
`1, 2, ..., k`, and for `k ≥ 1` the stored counter afterwards holds
exactly the decimal text of `k`: the stored value only ever increased,
by exactly 1 per bump. -/
theorem bump_sequence_strictly_increasing (quiet : Bool) (base : String)
    (k : Nat) (fs : Fs) (h : fsGet fs (base ++ "_rev.rev") = none) :
    (bumpTimes quiet base k fs).1
        = (List.range k).map (fun t : Nat => some ((t + 1 : Int))) ∧
    (1 ≤ k →
      fsGet (bumpTimes quiet base k fs).2 (base ++ "_rev.rev")
        = some (natChars k ++ ['\n'])) := by
  cases k with
  | zero => simp [bumpTimes]
  | succ m =>
    have hb := bump_create_eq noFaults quiet fs base h rfl
    have h1 : fsGet (bump_revision noFaults quiet fs base).fs (base ++ "_rev.rev")
        = some (natChars 1 ++ ['\n']) := by
      rw [hb]
      rw [fsGet_fsSet_self]
      rfl
    obtain ⟨ihr, ihf⟩ := bumpTimes_from quiet base m 1
      (bump_revision noFaults quiet fs base).fs h1
    simp only [bumpTimes]
    constructor
    · rw [ihr, List.range_succ_eq_map, List.map_cons, List.map_map]
      have htail :
          List.map ((fun t : Nat => some ((t + 1 : Int))) ∘ Nat.succ)
              (List.range m)
            = List.map
                (fun t : Nat => some (((1 : Nat) : Int) + (t : Int) + 1))
                (List.range m) := by
        apply List.map_congr_left
        intro t _
        simp only [Function.comp_apply]
        congr 1
        push_cast
        ring
      rw [htail, hb]
      norm_num
    · intro _
      rw [ihf]
      have : 1 + m = m + 1 := by omega
      rw [this]

/-- Witness for C3 at a concrete input: three bumps from an empty file
system return 1, 2, 3 and leave the counter at 3. -/
theorem bump_sequence_strictly_increasing_witness :
    fsGet ([] : Fs) ("b" ++ "_rev.rev") = none ∧
    (bumpTimes false "b" 3 []).1 = [some 1, some 2, some 3] ∧
    fsGet (bumpTimes false "b" 3 []).2 ("b" ++ "_rev.rev")
      = some (natChars 3 ++ ['\n']) := by
  refine ⟨by decide, ?_, ?_⟩
  · have := (bump_sequence_strictly_increasing false "b" 3 [] (by decide)).1
    simpa using this
  · exact (bump_sequence_strictly_increasing false "b" 3 [] (by decide)).2 (by omega)

/-- C4.  Rendering the header variant for name `myprog`, version 54,
revision 1 on the date 5.3.2024 succeeds and produces a file of exactly
six lines, each exactly the header template with those substitutions
(`\r`, `\n` and `\0` are the two-character escape sequences, written
with a backslash, exactly as the tool emits them). -/
theorem hfile_render_myprog (fs : Fs) (bn : String) :
    (hfile_codegen noFaults "myprog" 54 1 ⟨5, 3, 2024⟩ fs bn).ret = some true ∧
    (hfile_lines "myprog" 54 1 (dateStr ⟨5, 3, 2024⟩)).length = 6 ∧
    fsGet (hfile_codegen noFaults "myprog" 54 1 ⟨5, 3, 2024⟩ fs bn).fs
        (bn ++ "_rev.h")
      = some (mkContent
          [ "#define VERSION   54",
            "#define REVISION  1",
            "#define DATE      \"5.3.2024\"",
            "#define VERS      \"myprog 54.1\"",
            "#define VSTRING   \"myprog 54.1 (5.3.2024)\\r\\n\"",
            "#define VERSTAG   \"\\0$VER: myprog 54.1 (5.3.2024)\"" ]) := by
  refine ⟨rfl, rfl, ?_⟩
  show fsGet (fsSet fs (bn ++ "_rev.h")
      (mkContent (hfile_lines "myprog" 54 1 (dateStr ⟨5, 3, 2024⟩)))) (bn ++ "_rev.h")
    = _
  rw [fsGet_fsSet_self]
  rfl

/-- C9.  In the include/assembler-macro variant, for every descriptor
the `VERSTAG` macro body (line 17, here index 16, framed by the
`VERSTAG MACRO` header and `ENDM` trailer) emits exactly
`dc.b 0,'$VER: NVR (DATE',0` — the date is not followed by a closing
parenthesis. -/
theorem ifile_verstag_line (name : String) (ver rev : Int) (date : String) :
    (ifile_lines name ver rev date)[15]? = some "VERSTAG\tMACRO" ∧
    (ifile_lines name ver rev date)[16]?
      = some ("\t\tdc.b 0,'$VER: "
          ++ (name ++ " " ++ intStr ver ++ "." ++ intStr rev)
          ++ " (" ++ date ++ "',0") ∧
    (ifile_lines name ver rev date)[17]? = some "\t\tENDM" := by
  exact ⟨rfl, rfl, rfl⟩

theorem guard_filegen (of : String → Bool) (sel : Prop) [Decidable sel]
    (path : String) (lines : List String) (fs : Fs) :
    (if sel then filegen ⟨of, fun _ => false⟩ path lines fs
     else ⟨some true, fs, []⟩ : GenOut) =
    ⟨some (if sel ∧ of path = true then false else true),
     if sel ∧ of path = false then fsSet fs path (mkContent lines) else fs,
     if sel ∧ of path = true then ["Failed to open " ++ path] else []⟩ := by
  by_cases hsel : sel <;> by_cases hof : of path <;>
    simp [filegen, hsel, hof]

theorem gen_paths_distinct (bn : String) :
    bn ++ "_rev.h" ≠ bn ++ "_rev.i" ∧ bn ++ "_rev.h" ≠ bn ++ "_rev.s" ∧
    bn ++ "_rev.i" ≠ bn ++ "_rev.s" ∧ bn ++ "_rev.rev" ≠ bn ++ "_rev.h" ∧
    bn ++ "_rev.rev" ≠ bn ++ "_rev.i" ∧ bn ++ "_rev.rev" ≠ bn ++ "_rev.s" :=
  ⟨append_suffix_ne bn _ _ (by decide), append_suffix_ne bn _ _ (by decide),
   append_suffix_ne bn _ _ (by decide), append_suffix_ne bn _ _ (by decide),
   append_suffix_ne bn _ _ (by decide), append_suffix_ne bn _ _ (by decide)⟩

theorem runGens_open_faults (of : String → Bool) (sufs name : String)
    (version revision : Int) (today : PyDate) (fs : Fs) (bn : String) :
    (runGens ⟨of, fun _ => false⟩ sufs name version revision today fs bn).exitCode
        = 0 ∧
    fsGet (runGens ⟨of, fun _ => false⟩ sufs name version revision today fs bn).fs
        (bn ++ "_rev.h")
      = (if countc sufs 'h' = 1 ∧ of (bn ++ "_rev.h") = false
         then some (mkContent (hfile_lines name version revision (dateStr today)))
         else fsGet fs (bn ++ "_rev.h")) ∧
    fsGet (runGens ⟨of, fun _ => false⟩ sufs name version revision today fs bn).fs
        (bn ++ "_rev.i")
      = (if countc sufs 'i' = 1 ∧ of (bn ++ "_rev.i") = false
         then some (mkContent (ifile_lines name version revision (dateStr today)))
         else fsGet fs (bn ++ "_rev.i")) ∧
    fsGet (runGens ⟨of, fun _ => false⟩ sufs name version revision today fs bn).fs
        (bn ++ "_rev.s")
      = (if countc sufs 's' = 1 ∧ of (bn ++ "_rev.s") = false
         then some (mkContent (sfile_lines name version revision (dateStr today)))
         else fsGet fs (bn ++ "_rev.s")) ∧
    (∀ p, p ≠ bn ++ "_rev.h" → p ≠ bn ++ "_rev.i" → p ≠ bn ++ "_rev.s" →
      fsGet (runGens ⟨of, fun _ => false⟩ sufs name version revision today fs bn).fs p
        = fsGet fs p) := by
  obtain ⟨hhi, hhs, his, _, _, _⟩ := gen_paths_distinct bn
  simp only [runGens, hfile_codegen, ifile_codegen, sfile_codegen]
  rw [guard_filegen of (countc sufs 'h' = 1) (bn ++ "_rev.h")
    (hfile_lines name version revision (dateStr today)) fs]
  simp only []
  rw [guard_filegen of (countc sufs 'i' = 1) (bn ++ "_rev.i")
    (ifile_lines name version revision (dateStr today)) _]
  simp only []
  rw [guard_filegen of (countc sufs 's' = 1) (bn ++ "_rev.s")
    (sfile_lines name version revision (dateStr today)) _]
  simp only []
  refine ⟨trivial, ?_, ?_, ?_, ?_⟩
  · split_ifs with a1 a2 a3 <;>
      simp [fsGet_fsSet_self, fsGet_fsSet_ne, hhi, hhs, Ne.symm hhi, Ne.symm hhs]
  · split_ifs with a1 a2 a3 <;>
      simp [fsGet_fsSet_self, fsGet_fsSet_ne, his, Ne.symm hhi, Ne.symm his]
  · split_ifs with a1 a2 a3 <;>
      simp [fsGet_fsSet_self, fsGet_fsSet_ne, Ne.symm hhs, Ne.symm his]
  · intro p hp1 hp2 hp3
    split_ifs <;> simp [fsGet_fsSet_ne, hp1, hp2, hp3]

/-- C5 counterexample: with suffix string `hh` the letter `h` is
present, the run succeeds and bumps the counter, yet no header file is
generated, because the main block tests `count('h') == 1`, not
presence. -/
theorem suffix_hh_h_present_not_generated :
    ('h' ∈ ("hh" : String).data) ∧
    (bumprev_main noFaults ⟨true, "hh", some "p", 54, "b"⟩ ⟨5, 3, 2024⟩
        []).exitCode = 0 ∧
    fsGet (bumprev_main noFaults ⟨true, "hh", some "p", 54, "b"⟩ ⟨5, 3, 2024⟩
        []).fs "b_rev.rev" = some ['1', '\n'] ∧
    fsGet (bumprev_main noFaults ⟨true, "hh", some "p", 54, "b"⟩ ⟨5, 3, 2024⟩
        []).fs "b_rev.h" = none := by
  exact ⟨by decide, by decide, by decide, by decide⟩

/-- C5 (amended).  A format file is generated exactly when its letter
occurs exactly once in the suffixes string (`count(x) == 1`, so a
repeated letter deselects its format), and the revision counter is
bumped exactly once whenever at least one occurrence of `h`, `i` or
`s` is present, no matter how many: starting from an absent counter
file it ends holding exactly `1`. -/
theorem formats_generated_iff_count_one (sufs : String) (q : Bool)
    (nm : Option String) (v : Int) (bn : String) (d : PyDate) (fs : Fs)
    (h : fsGet fs (bn ++ "_rev.rev") = none)
    (hsel : 0 < countc sufs 'h' + countc sufs 'i' + countc sufs 's') :
    (bumprev_main noFaults ⟨q, sufs, nm, v, bn⟩ d fs).exitCode = 0 ∧
    fsGet (bumprev_main noFaults ⟨q, sufs, nm, v, bn⟩ d fs).fs (bn ++ "_rev.rev")
      = some ['1', '\n'] ∧
    (fsGet (bumprev_main noFaults ⟨q, sufs, nm, v, bn⟩ d fs).fs (bn ++ "_rev.h")
      = if countc sufs 'h' = 1
        then some (mkContent
          (hfile_lines (nm.getD (os_path_basename bn)) v 1 (dateStr d)))
        else fsGet fs (bn ++ "_rev.h")) ∧
    (fsGet (bumprev_main noFaults ⟨q, sufs, nm, v, bn⟩ d fs).fs (bn ++ "_rev.i")
      = if countc sufs 'i' = 1
        then some (mkContent
          (ifile_lines (nm.getD (os_path_basename bn)) v 1 (dateStr d)))
        else fsGet fs (bn ++ "_rev.i")) ∧
    (fsGet (bumprev_main noFaults ⟨q, sufs, nm, v, bn⟩ d fs).fs (bn ++ "_rev.s")
      = if countc sufs 's' = 1
        then some (mkContent
          (sfile_lines (nm.getD (os_path_basename bn)) v 1 (dateStr d)))
        else fsGet fs (bn ++ "_rev.s")) := by
  obtain ⟨hhi, hhs, his, hrh, hri, hrs⟩ := gen_paths_distinct bn
  have hnf : ¬(countc sufs 'h' + countc sufs 'i' + countc sufs 's' = 0) := by
    omega
  have hb := bump_create_eq noFaults q fs bn h rfl
  have hnoF : noFaults = (⟨fun _ => false, fun _ => false⟩ : Faults) := rfl
  obtain ⟨he, hh, hi, hs, hother⟩ := runGens_open_faults (fun _ => false) sufs
    (nm.getD (os_path_basename bn)) v 1 d
    (fsSet fs (bn ++ "_rev.rev") ['1', '\n']) bn
  simp only [bumprev_main, hb, hnf, if_false]
  rw [if_neg (by norm_num : ¬(1 : Int) = -1)]
  simp only [hnoF]
  refine ⟨he, ?_, ?_, ?_, ?_⟩
  · rw [hother _ hrh hri hrs, fsGet_fsSet_self]
  · rw [hh]
    by_cases hc : countc sufs 'h' = 1
    · simp [hc]
    · simp [hc, fsGet_fsSet_ne _ _ _ _ (Ne.symm hrh)]
  · rw [hi]
    by_cases hc : countc sufs 'i' = 1
    · simp [hc]
    · simp [hc, fsGet_fsSet_ne _ _ _ _ (Ne.symm hri)]
  · rw [hs]
    by_cases hc : countc sufs 's' = 1
    · simp [hc]
    · simp [hc, fsGet_fsSet_ne _ _ _ _ (Ne.symm hrs)]

/-- Witness for C5 (amended) at a concrete input: suffixes `hih`, so
`i` is generated, `h` is deselected by its repetition, `s` is absent;
the counter is still bumped exactly once. -/
theorem formats_generated_iff_count_one_witness :
    fsGet ([] : Fs) ("b" ++ "_rev.rev") = none ∧
    0 < countc "hih" 'h' + countc "hih" 'i' + countc "hih" 's' ∧
    fsGet (bumprev_main noFaults ⟨true, "hih", some "p", 54, "b"⟩ ⟨5, 3, 2024⟩
        []).fs ("b" ++ "_rev.rev") = some ['1', '\n'] := by
  refine ⟨by decide, by decide, ?_⟩
  exact (formats_generated_iff_count_one "hih" true (some "p") 54 "b" ⟨5, 3, 2024⟩
    [] (by decide) (by decide)).2.1

/-- C6.  When the suffixes string contains none of the letters `h`,
`i`, `s`, the process exits with code 1, changes no file at all
(counter file included, whatever its prior state) and prints nothing. -/
theorem empty_selection_no_side_effects (flt : Faults) (a : Args) (d : PyDate)
    (fs : Fs)
    (h : ¬('h' ∈ a.i.data) ∧ ¬('i' ∈ a.i.data) ∧ ¬('s' ∈ a.i.data)) :
    bumprev_main flt a d fs = ⟨1, fs, []⟩ := by
  have h0 : countc a.i 'h' + countc a.i 'i' + countc a.i 's' = 0 := by
    have h1 : countc a.i 'h' = 0 := List.count_eq_zero.2 h.1
    have h2 : countc a.i 'i' = 0 := List.count_eq_zero.2 h.2.1
    have h3 : countc a.i 's' = 0 := List.count_eq_zero.2 h.2.2
    omega
  simp [bumprev_main, h0]

/-- Witness for C6 at a concrete input: suffixes `xyz`, a counter file
already present and left untouched. -/
theorem empty_selection_no_side_effects_witness :
    (¬('h' ∈ ("xyz" : String).data) ∧ ¬('i' ∈ ("xyz" : String).data) ∧
      ¬('s' ∈ ("xyz" : String).data)) ∧
    bumprev_main noFaults ⟨false, "xyz", none, 54, "b"⟩ ⟨5, 3, 2024⟩
        [("b_rev.rev", ['7', '\n'])]
      = ⟨1, [("b_rev.rev", ['7', '\n'])], []⟩ := by
  refine ⟨by decide, ?_⟩
  exact empty_selection_no_side_effects noFaults ⟨false, "xyz", none, 54, "b"⟩
    ⟨5, 3, 2024⟩ [("b_rev.rev", ['7', '\n'])] (by decide)

/-- C7 (evaluation at the failing input).  With a counter file holding
`7` and the write on it failing with `IOError`, `bump_revision` prints
`Failed to bump b_rev.rev` but returns the stale value 7 instead of
the -1 error sentinel, so the main block does NOT abort: it generates
the header with the un-bumped revision 7 and exits 0 — contradicting
the contract that a failed bump aborts before any generation. -/
theorem counter_write_failure_generates_stale :
    (bumprev_main revWriteFault ⟨true, "h", none, 54, "b"⟩ ⟨5, 3, 2024⟩
        [("b_rev.rev", ['7', '\n'])]).exitCode = 0 ∧
    fsGet (bumprev_main revWriteFault ⟨true, "h", none, 54, "b"⟩ ⟨5, 3, 2024⟩
        [("b_rev.rev", ['7', '\n'])]).fs "b_rev.rev" = some ['7', '\n'] ∧
    fsGet (bumprev_main revWriteFault ⟨true, "h", none, 54, "b"⟩ ⟨5, 3, 2024⟩
        [("b_rev.rev", ['7', '\n'])]).fs "b_rev.h"
      = some (mkContent (hfile_lines "b" 54 7 (dateStr ⟨5, 3, 2024⟩))) ∧
    (bumprev_main revWriteFault ⟨true, "h", none, 54, "b"⟩ ⟨5, 3, 2024⟩
        [("b_rev.rev", ['7', '\n'])]).msgs = ["Failed to bump b_rev.rev"] := by
  exact ⟨by decide, by decide, by decide, by decide⟩

/-- C8 counterexample: with `h` and `i` both selected and the write to
the header file failing, the uncaught exception ends the process
before `IFile.codegen` ever runs, so no `b_rev.i` is produced — though
the identical faults with only `i` selected do produce it.  A write
failure in one variant therefore does prevent another variant's
generation. -/
theorem write_crash_blocks_next_variant :
    fsGet (bumprev_main hWriteFault ⟨true, "hi", none, 54, "b"⟩ ⟨5, 3, 2024⟩
        []).fs "b_rev.i" = none ∧
    (bumprev_main hWriteFault ⟨true, "hi", none, 54, "b"⟩ ⟨5, 3, 2024⟩
        []).exitCode = 1 ∧
    fsGet (bumprev_main hWriteFault ⟨true, "i", none, 54, "b"⟩ ⟨5, 3, 2024⟩
        []).fs "b_rev.i"
      = some (mkContent (ifile_lines "b" 54 1 (dateStr ⟨5, 3, 2024⟩))) := by
  exact ⟨by decide, by decide, by decide⟩

/-- C8 (amended).  Failures to OPEN a generator's output file are
independent per format: under arbitrary open faults (and no write
faults), each selected variant's file is produced exactly when its own
open succeeds, regardless of the other variants' faults, and the run
still exits 0. -/
theorem open_failures_independent (of : String → Bool) (sufs : String)
    (q : Bool) (nm : Option String) (v : Int) (bn : String) (d : PyDate)
    (fs : Fs) (h : fsGet fs (bn ++ "_rev.rev") = none)
    (hof : of (bn ++ "_rev.rev") = false)
    (hsel : 0 < countc sufs 'h' + countc sufs 'i' + countc sufs 's') :
    (bumprev_main ⟨of, fun _ => false⟩ ⟨q, sufs, nm, v, bn⟩ d fs).exitCode = 0 ∧
    (fsGet (bumprev_main ⟨of, fun _ => false⟩ ⟨q, sufs, nm, v, bn⟩ d fs).fs
        (bn ++ "_rev.h")
      = if countc sufs 'h' = 1 ∧ of (bn ++ "_rev.h") = false
        then some (mkContent
          (hfile_lines (nm.getD (os_path_basename bn)) v 1 (dateStr d)))
        else fsGet fs (bn ++ "_rev.h")) ∧
    (fsGet (bumprev_main ⟨of, fun _ => false⟩ ⟨q, sufs, nm, v, bn⟩ d fs).fs
        (bn ++ "_rev.i")
      = if countc sufs 'i' = 1 ∧ of (bn ++ "_rev.i") = false
        then some (mkContent
          (ifile_lines (nm.getD (os_path_basename bn)) v 1 (dateStr d)))
        else fsGet fs (bn ++ "_rev.i")) ∧
    (fsGet (bumprev_main ⟨of, fun _ => false⟩ ⟨q, sufs, nm, v, bn⟩ d fs).fs
        (bn ++ "_rev.s")
      = if countc sufs 's' = 1 ∧ of (bn ++ "_rev.s") = false
        then some (mkContent
          (sfile_lines (nm.getD (os_path_basename bn)) v 1 (dateStr d)))
        else fsGet fs (bn ++ "_rev.s")) := by
  obtain ⟨hhi, hhs, his, hrh, hri, hrs⟩ := gen_paths_distinct bn
  have hnf : ¬(countc sufs 'h' + countc sufs 'i' + countc sufs 's' = 0) := by
    omega
  have hb := bump_create_eq ⟨of, fun _ => false⟩ q fs bn h hof
  obtain ⟨he, hh, hi, hs, hother⟩ := runGens_open_faults of sufs
    (nm.getD (os_path_basename bn)) v 1 d
    (fsSet fs (bn ++ "_rev.rev") ['1', '\n']) bn
  simp only [bumprev_main, hb, hnf, if_false]
  rw [if_neg (by norm_num : ¬(1 : Int) = -1)]
  refine ⟨he, ?_, ?_, ?_⟩
  · rw [hh]
    by_cases hc : countc sufs 'h' = 1 ∧ of (bn ++ "_rev.h") = false
    · simp [hc]
    · simp [hc, fsGet_fsSet_ne _ _ _ _ (Ne.symm hrh)]
  · rw [hi]
    by_cases hc : countc sufs 'i' = 1 ∧ of (bn ++ "_rev.i") = false
    · simp [hc]
    · simp [hc, fsGet_fsSet_ne _ _ _ _ (Ne.symm hri)]
  · rw [hs]
    by_cases hc : countc sufs 's' = 1 ∧ of (bn ++ "_rev.s") = false
    · simp [hc]
    · simp [hc, fsGet_fsSet_ne _ _ _ _ (Ne.symm hrs)]

/-- Witness for C8 (amended) at a concrete input: all three formats
selected, the header's open failing; the include and assembler files
are still produced. -/
theorem open_failures_independent_witness :
    fsGet ([] : Fs) ("b" ++ "_rev.rev") = none ∧
    (fun p => p == "b_rev.h") ("b" ++ "_rev.rev") = false ∧
    0 < countc "his" 'h' + countc "his" 'i' + countc "his" 's' ∧
    fsGet (bumprev_main ⟨fun p => p == "b_rev.h", fun _ => false⟩
        ⟨true, "his", none, 54, "b"⟩ ⟨5, 3, 2024⟩ []).fs ("b" ++ "_rev.i")
      = some (mkContent (ifile_lines "b" 54 1 (dateStr ⟨5, 3, 2024⟩))) := by
  refine ⟨by decide, by decide, by decide, ?_⟩
  have := (open_failures_independent (fun p => p == "b_rev.h") "his" true none
    54 "b" ⟨5, 3, 2024⟩ [] (by decide) (by decide) (by decide)).2.2.1
  simpa using this

theorem bump_revision_quiet_invariant (flt : Faults) (fs : Fs) (base : String) :
    (bump_revision flt true fs base).ret = (bump_revision flt false fs base).ret ∧
    (bump_revision flt true fs base).fs = (bump_revision flt false fs base).fs := by
  simp only [bump_revision]
  cases hg : fsGet fs (base ++ "_rev.rev") with
  | some c => exact ⟨rfl, rfl⟩
  | none =>
    by_cases h1 : flt.openFail (base ++ "_rev.rev") <;> simp [h1]

/-- C10.  The quiet flag has no effect on any persisted or generated
file, nor on the exit code: for every fault pattern, argument set,
date and prior file system, running with `-q` and without it ends with
the identical file system and exit code (only the informational
messages differ). -/
theorem quiet_flag_output_invariant (flt : Faults) (sufs : String)
    (nm : Option String) (v : Int) (bn : String) (d : PyDate) (fs : Fs) :
    (bumprev_main flt ⟨true, sufs, nm, v, bn⟩ d fs).fs
      = (bumprev_main flt ⟨false, sufs, nm, v, bn⟩ d fs).fs ∧
    (bumprev_main flt ⟨true, sufs, nm, v, bn⟩ d fs).exitCode
      = (bumprev_main flt ⟨false, sufs, nm, v, bn⟩ d fs).exitCode := by
  obtain ⟨hret, hfs⟩ := bump_revision_quiet_invariant flt fs bn
  simp only [bumprev_main]
  by_cases h0 : countc sufs 'h' + countc sufs 'i' + countc sufs 's' = 0
  · simp [h0]
  · simp only [h0, if_false]
    rw [hret, hfs]
    cases hr : (bump_revision flt false fs bn).ret with
    | none => exact ⟨rfl, rfl⟩
    | some revision =>
      by_cases hm1 : revision = -1
      · simp [hm1]
      · simp [hm1]
